import Mathlib

/-!
Shallow embedding of the ODE time-stepping integrator of
`src/cpp/src/OrdDiffEq.cpp`: the two overloads of `ODE`, i.e. the
adaptive-threshold entry point (lines 141-535) and the fixed-step entry
point (lines 537-891), translated over exact rational arithmetic.

External collaborators (the 13 IBS growth-rate model functions dispatched
by the `switch (model)` blocks, the radiation-damping/equilibrium solver
producing the `equi` array, `sigsfromsige` and `SigeFromRFAndSigs`) are
declared in other translation units and consumed through their interfaces
only; they are modelled as fields of `Env` below, as functions of the
arguments that vary inside one `ODE` call (all other arguments are fixed
per call).  Diagnostic printing (`debug_output`) has no effect on the
numerical results and is dropped.

The source divides `1.0` by growth rates that may be zero; IEEE semantics
give `+inf`, which the surrounding `min`/`max` chains then absorb.  This
is modelled explicitly by `minRecip` (a `min` step that skips a zero rate,
as `min(x, +inf) = x`) and by the zero test in `taumOf` (a `max` chain
containing `+inf` is `+inf`, and `min(+inf, 1.0) = 1.0`).  Division of a
nonzero quantity by an exact zero elsewhere (e.g. a relaxation ratio
exactly equal to 1) is a numerical degeneracy with no defined reference
behaviour; the rational convention `x / 0 = 0` applies there and no
theorem below depends on such a case.
-/

/-- Per-call environment of one `ODE` call: the outputs of the external
equilibrium solver and the external functions the loop calls.
* `tauradx`, `taurady`, `taurads` : `equi[0..2]`, radiation damping times.
* `equi3`, `equi4` : natural equilibrium horizontal emittance and natural
  (radiation) vertical emittance, `equi[3]` and `equi[4]`.
* `equi5` : equilibrium energy spread squared, `equi[5]`.
* `equi6` : equilibrium bunch length, `equi[6]`.
* `sqrtEqui5` : the value of `sqrt(equi[5])` (external real square root,
  supplied as a value).
* `rates` : the growth-rate model selected by `model`, as a function of
  `(ex, ey, sigs, sige)`, returning `(aes, aex, aey)` = `(ibs[0], ibs[1],
  ibs[2])`; `pnumber`, `twiss`, `twissdata`, `r0` are fixed per call.
* `sigsfromsige` : external `sigsfromsige(sige, gamma, gammatr, omegas)`
  as a function of its first argument.
* `sigeFromRFAndSigs` : external `SigeFromRFAndSigs(x, U0, charge, nrf,
  harmon, voltages, gamma, gammatr, pc, len, phis, false)` as a function
  of its first argument `x`. -/
structure Env where
  tauradx : ℚ
  taurady : ℚ
  taurads : ℚ
  equi3 : ℚ
  equi4 : ℚ
  equi5 : ℚ
  equi6 : ℚ
  sqrtEqui5 : ℚ
  rates : ℚ → ℚ → ℚ → ℚ → ℚ × ℚ × ℚ
  sigsfromsige : ℚ → ℚ
  sigeFromRFAndSigs : ℚ → ℚ

/-- The six history vectors grown by the integrator (`t`, `ex`, `ey`,
`sigs`, `sige` and the local `sige2`); `push_back` is modelled by
appending a singleton. -/
structure Hist where
  t : List ℚ
  ex : List ℚ
  ey : List ℚ
  sigs : List ℚ
  sige : List ℚ
  sige2 : List ℚ

/-- `min(acc, 1.0/a)` under IEEE semantics: for `a = 0` the division gives
`+inf` and the `min` keeps `acc`. -/
def minRecip (acc a : ℚ) : ℚ := if a = 0 then acc else min acc (1 / a)

/-- Lines 326-330 (and 375-379): the running minimum of the damping times
and the inverse growth rates, in the order the source folds them. -/
def ddtMin (e : Env) (r : ℚ × ℚ × ℚ) : ℚ :=
  minRecip (minRecip (minRecip (min (min e.tauradx e.taurady) e.taurads) r.1) r.2.1) r.2.2

/-- Lines 318-323: the running maximum of the damping times and inverse
growth rates, clamped by `min(taum, 1.0)`.  Under IEEE semantics a zero
growth rate puts `+inf` into the `max` chain and the final clamp then
returns `1.0`. -/
def taumOf (e : Env) (r : ℚ × ℚ × ℚ) : ℚ :=
  if r.1 = 0 ∨ r.2.1 = 0 ∨ r.2.2 = 0 then 1
  else
    min (max (max (max (max (max e.tauradx e.taurady) e.taurads) (1 / r.1)) (1 / r.2.1))
          (1 / r.2.2)) 1

/-- The C cast `(int)` at line 336 truncates toward zero. -/
def ratTrunc (q : ℚ) : ℤ := Int.tdiv q.num (q.den : ℤ)

/-- The per-iteration growth-rate evaluation (the `switch (model)` block at
lines 383-474 resp. 737-828): the selected external model applied to
`ex[j]`, `ey[j]`, `sigs[j]`, `sige[j]`. -/
def ratesOf (e : Env) (h : Hist) (j : ℕ) : ℚ × ℚ × ℚ :=
  e.rates (h.ex.getD j 0) (h.ey.getD j 0) (h.sigs.getD j 0) (h.sige.getD j 0)

/-- The step size the adaptive loop applies at one iteration, as a function
of the value the `ibs` variable holds when the loop body starts (lines
375-380 compute `min(...)/2` from that value; line 480 multiplies by 4 in
the relaxation branch). -/
def dtUsed (e : Env) (m : String) (r : ℚ × ℚ × ℚ) : ℚ :=
  if m = "rlx" then ddtMin e r / 2 * 4 else ddtMin e r / 2

/-- Line 500-501: `dxdt = -(ex[i-1] - equi[3]) * 2. / tauradx + ex[i-1] * 2.0 * aex`. -/
def dxdtOf (e : Env) (exv aex : ℚ) : ℚ := -(exv - e.equi3) * 2 / e.tauradx + exv * 2 * aex

/-- Line 502-503: `dydt = -(ey[i-1] - ey0_coupled) * 2. / taurady + ey[i-1] * 2.0 * aey`. -/
def dydtOf (e : Env) (ey0c eyv aey : ℚ) : ℚ := -(eyv - ey0c) * 2 / e.taurady + eyv * 2 * aey

/-- Line 504-505: `dedt = -(sige[i-1] - sqrt(equi[5])) / taurads + sige[i-1] * aes`. -/
def dedtOf (e : Env) (sigev aes : ℚ) : ℚ := -(sigev - e.sqrtEqui5) / e.taurads + sigev * aes

/-- The relaxation factor `1.0 / (1.0 - tau * a)` (lines 485-487, 843-845). -/
def rlxFactor (tau a : ℚ) : ℚ := 1 / (1 - tau * a)

/-- The relative change of series `l` between entries `k-1` and `k`, as in
the `while` condition at lines 516-518. -/
def relDiff (l : List ℚ) (k : ℕ) : ℚ :=
  |(l.getD k 0 - l.getD (k - 1) 0) / l.getD (k - 1) 0|

/-- Negation of the continuation disjunction in the `while` condition at
lines 516-518: all three relative changes are at most `threshold`. -/
def convergedAt (h : Hist) (k : ℕ) (thr : ℚ) : Prop :=
  relDiff h.ex k ≤ thr ∧ relDiff h.ey k ≤ thr ∧ relDiff h.sigs k ≤ thr

instance (h : Hist) (k : ℕ) (thr : ℚ) : Decidable (convergedAt h k thr) :=
  inferInstanceAs (Decidable (_ ∧ _ ∧ _))

/-- One execution of the adaptive loop body (lines 359-513), entered with
loop variable `i` and with the `ibs` variable holding `ibs` (the value
left by the previous iteration's `switch`, or the initial evaluation).
Returns the updated history and the new `ibs` value.  The body first
recomputes `ddt` from the incoming `ibs` (lines 375-380), then
re-evaluates the growth rates at index `i` (lines 383-474), increments
`i` (line 477) and appends one entry to every series (lines 479-513);
`sige[i]` read after the `push_back` is index `i+1` of the updated
`sige`. -/
def adaptiveBody (e : Env) (m : String) (coupling ey0c : ℚ) (h : Hist)
    (ibs : ℚ × ℚ × ℚ) (i : ℕ) : Hist × (ℚ × ℚ × ℚ) :=
  let ddt := ddtMin e ibs / 2
  let r := ratesOf e h i
  let aes := r.1
  let aex := r.2.1
  let aey := r.2.2
  if m = "rlx" then
    let ddt := ddt * 4
    let xfactor := rlxFactor e.tauradx aex
    let yfactor := rlxFactor e.taurady aey
    let sfactor := rlxFactor e.taurads aes
    let sige' := h.sige ++ [h.sige.getD i 0 + ddt * (sfactor * e.sqrtEqui5 - h.sige.getD i 0)]
    (⟨h.t ++ [h.t.getD i 0 + ddt],
      h.ex ++ [h.ex.getD i 0 + ddt * (xfactor * e.equi3 - h.ex.getD i 0)],
      h.ey ++ [h.ey.getD i 0 +
        ddt * (((1 - coupling) * yfactor + coupling * xfactor) * ey0c - h.ey.getD i 0)],
      h.sigs ++ [e.sigsfromsige (sige'.getD (i + 1) 0)],
      sige',
      h.sige2 ++ [sige'.getD (i + 1) 0 * sige'.getD (i + 1) 0]⟩, r)
  else
    let sige' := h.sige ++ [h.sige.getD i 0 + ddt * dedtOf e (h.sige.getD i 0) aes]
    (⟨h.t ++ [h.t.getD i 0 + ddt],
      h.ex ++ [h.ex.getD i 0 + ddt * dxdtOf e (h.ex.getD i 0) aex],
      h.ey ++ [h.ey.getD i 0 + ddt * dydtOf e ey0c (h.ey.getD i 0) aey],
      h.sigs ++ [e.sigsfromsige (sige'.getD (i + 1) 0)],
      sige',
      h.sige2 ++ [sige'.getD (i + 1) 0 * sige'.getD (i + 1) 0]⟩, r)

/-- The adaptive `do { ... } while (i < ms && (... > threshold || ...))`
loop (lines 359-518), fuelled.  The caller supplies `fuel = ms.toNat`; the
continuation test requires `i + 1 < ms`, so the fuel can only run out when
the `while` condition is false anyway (this is certified by the budget
disjunct of `adaptiveGo_spec`). -/
def adaptiveGo (e : Env) (m : String) (coupling ey0c thr : ℚ) (ms : ℤ) :
    ℕ → Hist → (ℚ × ℚ × ℚ) → ℕ → Hist
  | 0, h, ibs, i => (adaptiveBody e m coupling ey0c h ibs i).1
  | fuel + 1, h, ibs, i =>
    let p := adaptiveBody e m coupling ey0c h ibs i
    if ((i + 1 : ℕ) : ℤ) < ms ∧ ¬ convergedAt p.1 (i + 1) thr then
      adaptiveGo e m coupling ey0c thr ms fuel p.1 p.2 (i + 1)
    else
      p.1

/-- The adaptive-threshold `ODE` overload (lines 141-535).  `sige` is the
value of the caller's energy-spread vector at entry (the parameter is
passed by value).  Returns the function's local history; the caller-visible
effect is `adaptiveCallerView`.
* Lines 151-163: method and threshold sanitization.
* Lines 165-170: coupling percentage sanitization and rescaling.
* Line 216: `ey0_coupled = max(coupling * equi[3], equi[4])`.
* Lines 217, 240-241: `sige0` is first computed by `sigefromsigs` and then
  overwritten by `SigeFromRFAndSigs(equi[6], ...)`; only the second value
  is ever used (the first reaches only a debug print), so only it is
  modelled.
* Lines 250-253: seed push of `sige0` and of `sige[0]^2`.
* Lines 263-315: initial growth rates at index 0 of every series (for
  `sige` this is the caller's seed entry, not `sige0`).
* Lines 317-337: `taum`, the pre-loop `ddt` (its halving is commented
  out in the source) and `ms = min((int)(10*taum/ddt), 10000)`. -/
def ODEadaptive (e : Env) (t ex ey sigs sige : List ℚ) (couplingpercentage : ℤ)
    (threshold : ℚ) (method : String) : Hist :=
  let method1 := if ¬ (method = "rlx" ∨ method = "der") then "der" else method
  let threshold1 := if threshold > 1 ∨ threshold < 1 / 1000000 then 1 / 10000 else threshold
  let cp1 := if couplingpercentage > 100 ∨ couplingpercentage < 0 then 0 else couplingpercentage
  let coupling : ℚ := (cp1 : ℚ) / 100
  let ey0c := max (coupling * e.equi3) e.equi4
  let sige0 := e.sigeFromRFAndSigs e.equi6
  let sigeFull := sige ++ [sige0]
  let h : Hist := ⟨t, ex, ey, sigs, sigeFull, [sigeFull.getD 0 0 * sigeFull.getD 0 0]⟩
  let ibs0 := e.rates (ex.getD 0 0) (ey.getD 0 0) (sigs.getD 0 0) (sigeFull.getD 0 0)
  let ms : ℤ := min (ratTrunc (10 * taumOf e ibs0 / ddtMin e ibs0)) 10000
  adaptiveGo e method1 coupling ey0c threshold1 ms ms.toNat h ibs0 0

/-- One execution of the fixed-step loop body (lines 719-871).  `ddt` is
the mutable step-size variable (initialized to `stepsize` at line 578 and
only changed by the halving guard at lines 839-841); the body returns its
value after the iteration. -/
def fixedBody (e : Env) (m : String) (coupling ey0c : ℚ) (h : Hist) (ddt : ℚ) (i : ℕ) :
    Hist × ℚ :=
  let r := ratesOf e h i
  let aes := r.1
  let aex := r.2.1
  let aey := r.2.2
  if m = "rlx" then
    let ratiox := e.tauradx * aex
    let ratioy := e.taurady * aey
    let ratios := e.taurads * aes
    let ddt := if 1 ≤ ratiox ∨ 1 ≤ ratioy ∨ 1 ≤ ratios then ddt / 2 else ddt
    let xfactor := rlxFactor e.tauradx aex
    let yfactor := rlxFactor e.taurady aey
    let sfactor := rlxFactor e.taurads aes
    let sige' := h.sige ++ [h.sige.getD i 0 + ddt * (sfactor * e.sqrtEqui5 - h.sige.getD i 0)]
    (⟨h.t ++ [h.t.getD i 0 + ddt],
      h.ex ++ [h.ex.getD i 0 + ddt * (xfactor * e.equi3 - h.ex.getD i 0)],
      h.ey ++ [h.ey.getD i 0 +
        ddt * (((1 - coupling) * yfactor + coupling * xfactor) * ey0c - h.ey.getD i 0)],
      h.sigs ++ [e.sigsfromsige (sige'.getD (i + 1) 0)],
      sige',
      h.sige2 ++ [sige'.getD (i + 1) 0 * sige'.getD (i + 1) 0]⟩, ddt)
  else
    let sige' := h.sige ++ [h.sige.getD i 0 + ddt * dedtOf e (h.sige.getD i 0) aes]
    (⟨h.t ++ [h.t.getD i 0 + ddt],
      h.ex ++ [h.ex.getD i 0 + ddt * dxdtOf e (h.ex.getD i 0) aex],
      h.ey ++ [h.ey.getD i 0 + ddt * dydtOf e ey0c (h.ey.getD i 0) aey],
      h.sigs ++ [e.sigsfromsige (sige'.getD (i + 1) 0)],
      sige',
      h.sige2 ++ [sige'.getD (i + 1) 0 * sige'.getD (i + 1) 0]⟩, ddt)

/-- The fixed-step `do { ... } while (i < nsteps)` loop (lines 719-874),
fuelled; the caller supplies `fuel = nsteps.toNat`, which suffices because
the continuation test requires `i + 1 < nsteps`. -/
def fixedGo (e : Env) (m : String) (coupling ey0c : ℚ) (nsteps : ℤ) :
    ℕ → Hist → ℚ → ℕ → Hist
  | 0, h, ddt, i => (fixedBody e m coupling ey0c h ddt i).1
  | fuel + 1, h, ddt, i =>
    let p := fixedBody e m coupling ey0c h ddt i
    if ((i + 1 : ℕ) : ℤ) < nsteps then
      fixedGo e m coupling ey0c nsteps fuel p.1 p.2 (i + 1)
    else
      p.1

/-- The fixed-step `ODE` overload (lines 537-891).  `sige` is again passed
by value (line 540).
* Lines 544-558: coupling and method sanitization.
* Line 578: `ddt = stepsize`.
* Line 602: `ey0_coupled`.
* Lines 625-640: `sige0` is computed twice for debug printing and finally
  overwritten by `SigeFromRFAndSigs(sigs[0], ...)`; only that last value
  is ever used, so only it is modelled.
* Lines 643-645: seed push of `sige0` and `sige[0]^2`.
* Lines 655-707: the initial growth-rate evaluation; its result reaches
  only the debug `printouts` call (the loop re-evaluates before any use),
  so it does not appear below. -/
def ODEfixed (e : Env) (t ex ey sigs sige : List ℚ) (nsteps : ℤ) (stepsize : ℚ)
    (couplingpercentage : ℤ) (method : String) : Hist :=
  let cp1 := if couplingpercentage > 100 ∨ couplingpercentage < 0 then 0 else couplingpercentage
  let method1 := if ¬ (method = "rlx" ∨ method = "der") then "der" else method
  let coupling : ℚ := (cp1 : ℚ) / 100
  let ey0c := max (coupling * e.equi3) e.equi4
  let sige0 := e.sigeFromRFAndSigs (sigs.getD 0 0)
  let sigeFull := sige ++ [sige0]
  let h : Hist := ⟨t, ex, ey, sigs, sigeFull, [sigeFull.getD 0 0 * sigeFull.getD 0 0]⟩
  fixedGo e method1 coupling ey0c nsteps nsteps.toNat h stepsize 0

/-- The five sequences as the caller sees them after the call. -/
structure CallerView where
  t : List ℚ
  ex : List ℚ
  ey : List ℚ
  sigs : List ℚ
  sige : List ℚ

/-- Caller-visible effect of the adaptive overload: `t`, `ex`, `ey`,
`sigs` are reference parameters (lines 142-143), so the caller sees the
grown vectors; `sige` is a value parameter (line 144: `vector<double>
sige`, no `&`), so the caller's vector is unchanged. -/
def adaptiveCallerView (e : Env) (t ex ey sigs sige : List ℚ) (cp : ℤ) (thr : ℚ)
    (m : String) : CallerView :=
  let h := ODEadaptive e t ex ey sigs sige cp thr m
  ⟨h.t, h.ex, h.ey, h.sigs, sige⟩

/-- Caller-visible effect of the fixed-step overload: `sige` is a value
parameter (line 540), so the caller's vector is unchanged. -/
def fixedCallerView (e : Env) (t ex ey sigs sige : List ℚ) (nsteps : ℤ) (stepsize : ℚ)
    (cp : ℤ) (m : String) : CallerView :=
  let h := ODEfixed e t ex ey sigs sige nsteps stepsize cp m
  ⟨h.t, h.ex, h.ey, h.sigs, sige⟩

/-- A unit environment: all damping times and equilibrium values 1,
vanishing growth rates, identity external relations. -/
def E0 : Env where
  tauradx := 1
  taurady := 1
  taurads := 1
  equi3 := 1
  equi4 := 1
  equi5 := 1
  equi6 := 1
  sqrtEqui5 := 1
  rates := fun _ _ _ _ => (0, 0, 0)
  sigsfromsige := fun x => x
  sigeFromRFAndSigs := fun x => x

/-- An environment whose growth rates depend on the current horizontal
emittance, used to separate rates evaluated at different states. -/
def E2 : Env where
  tauradx := 9
  taurady := 9
  taurads := 9
  equi3 := 1
  equi4 := 1
  equi5 := 1
  equi6 := 1
  sqrtEqui5 := 1
  rates := fun exv _ _ _ => if exv < 2 then (1 / 4, 1 / 4, 1 / 4) else (1 / 8, 1 / 8, 1 / 8)
  sigsfromsige := fun x => x
  sigeFromRFAndSigs := fun x => x

/-- An environment with `tauradx * aex = 2 >= 1`, driving the fixed-step
relaxation guard. -/
def E3 : Env where
  tauradx := 2
  taurady := 1
  taurads := 1
  equi3 := 1
  equi4 := 1
  equi5 := 1
  equi6 := 1
  sqrtEqui5 := 1
  rates := fun _ _ _ _ => (0, 1, 0)
  sigsfromsige := fun x => x
  sigeFromRFAndSigs := fun x => x

/-! ### List and preservation infrastructure -/

lemma getD_snoc_lt (l : List ℚ) (x : ℚ) {n : ℕ} (h : n < l.length) :
    (l ++ [x]).getD n 0 = l.getD n 0 :=
  List.getD_append l [x] 0 n h

lemma getD_snoc_self (l : List ℚ) (x : ℚ) : (l ++ [x]).getD l.length 0 = x := by
  rw [List.getD_append_right l [x] 0 l.length le_rfl]
  simp

/-- `b` extends `a`: it is at least as long and agrees on every index of `a`. -/
def PreservesL (a b : List ℚ) : Prop :=
  a.length ≤ b.length ∧ ∀ j, j < a.length → b.getD j 0 = a.getD j 0

lemma preservesL_refl (a : List ℚ) : PreservesL a a := ⟨le_rfl, fun _ _ => Eq.refl _⟩

lemma preservesL_trans {a b c : List ℚ} (h1 : PreservesL a b) (h2 : PreservesL b c) :
    PreservesL a c :=
  ⟨le_trans h1.1 h2.1, fun j hj => Eq.trans (h2.2 j (lt_of_lt_of_le hj h1.1)) (h1.2 j hj)⟩

lemma preservesL_snoc (a : List ℚ) (x : ℚ) : PreservesL a (a ++ [x]) := by
  refine ⟨by simp, fun j hj => getD_snoc_lt a x hj⟩

/-- The run only appends: every already-written entry of every series is kept. -/
def Preserves (h out : Hist) : Prop :=
  PreservesL h.t out.t ∧ PreservesL h.ex out.ex ∧ PreservesL h.ey out.ey ∧
    PreservesL h.sigs out.sigs ∧ PreservesL h.sige out.sige

lemma preserves_refl (h : Hist) : Preserves h h :=
  ⟨preservesL_refl _, preservesL_refl _, preservesL_refl _, preservesL_refl _,
    preservesL_refl _⟩

lemma preserves_trans {a b c : Hist} (h1 : Preserves a b) (h2 : Preserves b c) :
    Preserves a c :=
  ⟨preservesL_trans h1.1 h2.1, preservesL_trans h1.2.1 h2.2.1,
    preservesL_trans h1.2.2.1 h2.2.2.1, preservesL_trans h1.2.2.2.1 h2.2.2.2.1,
    preservesL_trans h1.2.2.2.2 h2.2.2.2.2⟩

lemma ratesOf_congr (e : Env) {h out : Hist} (hp : Preserves h out) (j : ℕ)
    (hex : j < h.ex.length) (hey : j < h.ey.length) (hsigs : j < h.sigs.length)
    (hsige : j < h.sige.length) : ratesOf e out j = ratesOf e h j := by
  unfold ratesOf
  rw [hp.2.1.2 j hex, hp.2.2.1.2 j hey, hp.2.2.2.1.2 j hsigs, hp.2.2.2.2.2 j hsige]

lemma relDiff_congr {a b : List ℚ} (hp : PreservesL a b) (k : ℕ) (hk : k < a.length) :
    relDiff b k = relDiff a k := by
  unfold relDiff
  rw [hp.2 k hk, hp.2 (k - 1) (lt_of_le_of_lt (Nat.sub_le k 1) hk)]

lemma convergedAt_congr {h out : Hist} (hp : Preserves h out) (k : ℕ) (thr : ℚ)
    (hex : k < h.ex.length) (hey : k < h.ey.length) (hsigs : k < h.sigs.length) :
    convergedAt out k thr ↔ convergedAt h k thr := by
  unfold convergedAt
  rw [relDiff_congr hp.2.1 k hex, relDiff_congr hp.2.2.1 k hey,
    relDiff_congr hp.2.2.2.1 k hsigs]

/-! ### Adaptive body and loop lemmas -/

lemma adaptiveBody_shape (e : Env) (m : String) (cpl ey0c : ℚ) (h : Hist)
    (ibs : ℚ × ℚ × ℚ) (i : ℕ) :
    ∃ b c d v f, (adaptiveBody e m cpl ey0c h ibs i).1 =
      ⟨h.t ++ [h.t.getD i 0 + dtUsed e m ibs], h.ex ++ [b], h.ey ++ [c], h.sigs ++ [d],
        h.sige ++ [v], h.sige2 ++ [f]⟩ := by
  unfold adaptiveBody dtUsed
  by_cases hm : m = "rlx" <;> simp [hm]

lemma adaptiveBody_snd (e : Env) (m : String) (cpl ey0c : ℚ) (h : Hist)
    (ibs : ℚ × ℚ × ℚ) (i : ℕ) :
    (adaptiveBody e m cpl ey0c h ibs i).2 = ratesOf e h i := by
  unfold adaptiveBody
  by_cases hm : m = "rlx" <;> simp [hm]

lemma adaptiveBody_pres (e : Env) (m : String) (cpl ey0c : ℚ) (h : Hist)
    (ibs : ℚ × ℚ × ℚ) (i : ℕ) : Preserves h (adaptiveBody e m cpl ey0c h ibs i).1 := by
  obtain ⟨b, c, d, v, f, hshape⟩ := adaptiveBody_shape e m cpl ey0c h ibs i
  rw [hshape]
  exact ⟨preservesL_snoc _ _, preservesL_snoc _ _, preservesL_snoc _ _,
    preservesL_snoc _ _, preservesL_snoc _ _⟩

lemma adaptiveBody_len (e : Env) (m : String) (cpl ey0c : ℚ) (h : Hist)
    (ibs : ℚ × ℚ × ℚ) (i : ℕ) :
    (adaptiveBody e m cpl ey0c h ibs i).1.t.length = h.t.length + 1 ∧
    (adaptiveBody e m cpl ey0c h ibs i).1.ex.length = h.ex.length + 1 ∧
    (adaptiveBody e m cpl ey0c h ibs i).1.ey.length = h.ey.length + 1 ∧
    (adaptiveBody e m cpl ey0c h ibs i).1.sigs.length = h.sigs.length + 1 ∧
    (adaptiveBody e m cpl ey0c h ibs i).1.sige.length = h.sige.length + 1 ∧
    (adaptiveBody e m cpl ey0c h ibs i).1.sige2.length = h.sige2.length + 1 := by
  obtain ⟨b, c, d, v, f, hshape⟩ := adaptiveBody_shape e m cpl ey0c h ibs i
  rw [hshape]
  simp

lemma adaptiveBody_t_getD (e : Env) (m : String) (cpl ey0c : ℚ) (h : Hist)
    (ibs : ℚ × ℚ × ℚ) (i : ℕ) (hlen : h.t.length = i + 1) :
    (adaptiveBody e m cpl ey0c h ibs i).1.t.getD (i + 1) 0 =
      h.t.getD i 0 + dtUsed e m ibs := by
  obtain ⟨b, c, d, v, f, hshape⟩ := adaptiveBody_shape e m cpl ey0c h ibs i
  rw [hshape]
  show (h.t ++ [h.t.getD i 0 + dtUsed e m ibs]).getD (i + 1) 0 = _
  rw [← hlen, getD_snoc_self]

lemma adaptiveGo_pres (e : Env) (m : String) (cpl ey0c thr : ℚ) (ms : ℤ) :
    ∀ (fuel : ℕ) (h : Hist) (ibs : ℚ × ℚ × ℚ) (i : ℕ),
      Preserves h (adaptiveGo e m cpl ey0c thr ms fuel h ibs i) := by
  intro fuel
  induction fuel with
  | zero => intro h ibs i; exact adaptiveBody_pres e m cpl ey0c h ibs i
  | succ f IH =>
    intro h ibs i
    simp only [adaptiveGo]
    split
    · exact preserves_trans (adaptiveBody_pres e m cpl ey0c h ibs i) (IH _ _ _)
    · exact adaptiveBody_pres e m cpl ey0c h ibs i

/-- Postcondition of the adaptive loop entered at loop variable `i` with
`n` the final value of the loop variable: exactly `n - i` body executions
happened, the run stopped either because the budget `ms` was met or
because the convergence test succeeded, every earlier iteration passed
the continuation test, and each appended timestamp advanced by the step
size computed from the growth rates held over from the previous
iteration's evaluation. -/
def AdaptiveStop (e : Env) (m : String) (thr : ℚ) (ms : ℤ) (i : ℕ) (out : Hist) : Prop :=
  ∃ n : ℕ, i < n ∧
    out.t.length = n + 1 ∧ out.ex.length = n + 1 ∧ out.ey.length = n + 1 ∧
    out.sigs.length = n + 1 ∧ out.sige.length = n + 2 ∧ out.sige2.length = n + 1 ∧
    (ms ≤ (n : ℤ) ∨ convergedAt out n thr) ∧
    (∀ k : ℕ, i < k → k < n → (k : ℤ) < ms ∧ ¬ convergedAt out k thr) ∧
    (∀ k : ℕ, i < k → k ≤ n →
      out.t.getD k 0 = out.t.getD (k - 1) 0 + dtUsed e m (ratesOf e out (k - 2)))


lemma adaptiveStop_single (e : Env) (m : String) (thr : ℚ) (ms : ℤ) (h q : Hist)
    (ibs : ℚ × ℚ × ℚ) (i : ℕ)
    (ht : h.t.length = i + 1)
    (lt : q.t.length = h.t.length + 1) (lex : q.ex.length = h.ex.length + 1)
    (ley : q.ey.length = h.ey.length + 1) (lsigs : q.sigs.length = h.sigs.length + 1)
    (lsige : q.sige.length = h.sige.length + 1) (lsige2 : q.sige2.length = h.sige2.length + 1)
    (hex : h.ex.length = i + 1) (hey : h.ey.length = i + 1)
    (hsigs : h.sigs.length = i + 1) (hsige : h.sige.length = i + 2)
    (hsige2 : h.sige2.length = i + 1)
    (hpres : Preserves h q)
    (htv : q.t.getD (i + 1) 0 = h.t.getD i 0 + dtUsed e m ibs)
    (hstop : ms ≤ (i : ℤ) + 1 ∨ convergedAt q (i + 1) thr)
    (hibs : ibs = ratesOf e h (i - 1)) :
    AdaptiveStop e m thr ms i q := by
  refine ⟨i + 1, Nat.lt_succ_self i, by omega, by omega, by omega, by omega, by omega,
    by omega, ?_, ?_, ?_⟩
  · rcases hstop with hstop | hstop
    · exact Or.inl (by exact_mod_cast hstop)
    · exact Or.inr hstop
  · intro k hik hki
    omega
  · intro k hik hki
    have hk : k = i + 1 := by omega
    subst hk
    have h12 : i + 1 - 2 = i - 1 := by omega
    have h11 : i + 1 - 1 = i := by omega
    rw [h12, h11, htv, hpres.1.2 i (by omega),
      ratesOf_congr e hpres (i - 1) (by omega) (by omega) (by omega) (by omega), ← hibs]

lemma adaptiveStop_step (e : Env) (m : String) (thr : ℚ) (ms : ℤ) (h q out : Hist)
    (ibs : ℚ × ℚ × ℚ) (i : ℕ)
    (ht : h.t.length = i + 1) (hex : h.ex.length = i + 1) (hey : h.ey.length = i + 1)
    (hsigs : h.sigs.length = i + 1) (hsige : h.sige.length = i + 2)
    (lt : q.t.length = h.t.length + 1) (lex : q.ex.length = h.ex.length + 1)
    (ley : q.ey.length = h.ey.length + 1) (lsigs : q.sigs.length = h.sigs.length + 1)
    (hbpres : Preserves h q)
    (htv : q.t.getD (i + 1) 0 = h.t.getD i 0 + dtUsed e m ibs)
    (hgpres : Preserves q out)
    (hc1 : ((i + 1 : ℕ) : ℤ) < ms) (hc2 : ¬ convergedAt q (i + 1) thr)
    (hibs : ibs = ratesOf e h (i - 1))
    (hnext : AdaptiveStop e m thr ms (i + 1) out) :
    AdaptiveStop e m thr ms i out := by
  obtain ⟨n, hin, olt, olex, oley, olsigs, olsige, olsige2, ostop, omid, odt⟩ := hnext
  refine ⟨n, by omega, olt, olex, oley, olsigs, olsige, olsige2, ostop, ?_, ?_⟩
  · intro k hik hkn
    rcases Nat.lt_or_ge (i + 1) k with hk | hk
    · exact omid k hk hkn
    · have hk1 : k = i + 1 := by omega
      subst hk1
      refine ⟨hc1, ?_⟩
      rw [convergedAt_congr hgpres (i + 1) thr (by omega) (by omega) (by omega)]
      exact hc2
  · intro k hik hkn
    rcases Nat.lt_or_ge (i + 1) k with hk | hk
    · exact odt k hk hkn
    · have hk1 : k = i + 1 := by omega
      subst hk1
      have h12 : i + 1 - 2 = i - 1 := by omega
      have h11 : i + 1 - 1 = i := by omega
      rw [h12, h11, hgpres.1.2 (i + 1) (by omega), hgpres.1.2 i (by omega), htv,
        hbpres.1.2 i (by omega),
        ratesOf_congr e (preserves_trans hbpres hgpres) (i - 1) (by omega) (by omega) (by omega)
          (by omega), ← hibs]

set_option maxHeartbeats 2000000 in
lemma adaptiveGo_spec (e : Env) (m : String) (cpl ey0c thr : ℚ) (ms : ℤ) :
    ∀ (fuel : ℕ) (h : Hist) (ibs : ℚ × ℚ × ℚ) (i : ℕ),
      h.t.length = i + 1 → h.ex.length = i + 1 → h.ey.length = i + 1 →
      h.sigs.length = i + 1 → h.sige.length = i + 2 → h.sige2.length = i + 1 →
      ms ≤ (i : ℤ) + fuel + 1 →
      ibs = ratesOf e h (i - 1) →
      AdaptiveStop e m thr ms i (adaptiveGo e m cpl ey0c thr ms fuel h ibs i) := by
  intro fuel
  induction fuel with
  | zero =>
    intro h ibs i ht hex hey hsigs hsige hsige2 hms hibs
    obtain ⟨lt, lex, ley, lsigs, lsige, lsige2⟩ := adaptiveBody_len e m cpl ey0c h ibs i
    have hbpres := adaptiveBody_pres e m cpl ey0c h ibs i
    have htv := adaptiveBody_t_getD e m cpl ey0c h ibs i ht
    simp only [adaptiveGo]
    generalize hq : (adaptiveBody e m cpl ey0c h ibs i).1 = q at lt lex ley lsigs lsige lsige2 hbpres htv ⊢
    clear hq
    refine adaptiveStop_single e m thr ms h q ibs i ht lt lex ley lsigs lsige lsige2
      hex hey hsigs hsige hsige2 hbpres htv (Or.inl ?_) hibs
    push_cast at hms ⊢
    omega
  | succ f IH =>
    intro h ibs i ht hex hey hsigs hsige hsige2 hms hibs
    obtain ⟨lt, lex, ley, lsigs, lsige, lsige2⟩ := adaptiveBody_len e m cpl ey0c h ibs i
    have hbpres := adaptiveBody_pres e m cpl ey0c h ibs i
    have hbsnd := adaptiveBody_snd e m cpl ey0c h ibs i
    have htv := adaptiveBody_t_getD e m cpl ey0c h ibs i ht
    simp only [adaptiveGo]
    generalize hq : adaptiveBody e m cpl ey0c h ibs i = pq at lt lex ley lsigs lsige lsige2 hbpres hbsnd htv ⊢
    clear hq
    by_cases hc : ((i + 1 : ℕ) : ℤ) < ms ∧ ¬ convergedAt pq.1 (i + 1) thr
    · rw [if_pos hc]
      have hibs2 : pq.2 = ratesOf e pq.1 (i + 1 - 1) := by
        have h11 : i + 1 - 1 = i := by omega
        rw [h11, hbsnd,
          ratesOf_congr e hbpres i (by omega) (by omega) (by omega) (by omega)]
      exact adaptiveStop_step e m thr ms h pq.1 _ ibs i ht hex hey hsigs hsige
        lt lex ley lsigs hbpres htv
        (adaptiveGo_pres e m cpl ey0c thr ms f pq.1 pq.2 (i + 1)) hc.1 hc.2 hibs
        (IH pq.1 pq.2 (i + 1) (by omega) (by omega) (by omega) (by omega) (by omega)
          (by omega) (by push_cast at hms ⊢; omega) hibs2)
    · rw [if_neg hc]
      push_neg at hc
      refine adaptiveStop_single e m thr ms h pq.1 ibs i ht lt lex ley lsigs lsige lsige2
        hex hey hsigs hsige hsige2 hbpres htv ?_ hibs
      by_cases hlt : ((i + 1 : ℕ) : ℤ) < ms
      · exact Or.inr (hc hlt)
      · refine Or.inl ?_
        push_cast at hlt ⊢
        omega

/-! ### Fixed-step body and loop lemmas -/

lemma fixedBody_shape (e : Env) (m : String) (cpl ey0c : ℚ) (h : Hist) (ddt : ℚ) (i : ℕ) :
    ∃ a b c d v f, (fixedBody e m cpl ey0c h ddt i).1 =
      ⟨h.t ++ [a], h.ex ++ [b], h.ey ++ [c], h.sigs ++ [d], h.sige ++ [v],
        h.sige2 ++ [f]⟩ := by
  unfold fixedBody
  by_cases hm : m = "rlx" <;> simp [hm]

lemma fixedBody_pres (e : Env) (m : String) (cpl ey0c : ℚ) (h : Hist) (ddt : ℚ) (i : ℕ) :
    Preserves h (fixedBody e m cpl ey0c h ddt i).1 := by
  obtain ⟨a, b, c, d, v, f, hshape⟩ := fixedBody_shape e m cpl ey0c h ddt i
  rw [hshape]
  exact ⟨preservesL_snoc _ _, preservesL_snoc _ _, preservesL_snoc _ _,
    preservesL_snoc _ _, preservesL_snoc _ _⟩

lemma fixedBody_len (e : Env) (m : String) (cpl ey0c : ℚ) (h : Hist) (ddt : ℚ) (i : ℕ) :
    (fixedBody e m cpl ey0c h ddt i).1.t.length = h.t.length + 1 ∧
    (fixedBody e m cpl ey0c h ddt i).1.ex.length = h.ex.length + 1 ∧
    (fixedBody e m cpl ey0c h ddt i).1.ey.length = h.ey.length + 1 ∧
    (fixedBody e m cpl ey0c h ddt i).1.sigs.length = h.sigs.length + 1 ∧
    (fixedBody e m cpl ey0c h ddt i).1.sige.length = h.sige.length + 1 ∧
    (fixedBody e m cpl ey0c h ddt i).1.sige2.length = h.sige2.length + 1 := by
  obtain ⟨a, b, c, d, v, f, hshape⟩ := fixedBody_shape e m cpl ey0c h ddt i
  rw [hshape]
  simp

lemma fixedGo_pres (e : Env) (m : String) (cpl ey0c : ℚ) (ns : ℤ) :
    ∀ (fuel : ℕ) (h : Hist) (ddt : ℚ) (i : ℕ),
      Preserves h (fixedGo e m cpl ey0c ns fuel h ddt i) := by
  intro fuel
  induction fuel with
  | zero => intro h ddt i; exact fixedBody_pres e m cpl ey0c h ddt i
  | succ f IH =>
    intro h ddt i
    simp only [fixedGo]
    split
    · exact preserves_trans (fixedBody_pres e m cpl ey0c h ddt i) (IH _ _ _)
    · exact fixedBody_pres e m cpl ey0c h ddt i

set_option maxHeartbeats 1000000 in
lemma fixedGo_len (e : Env) (m : String) (cpl ey0c : ℚ) (ns : ℤ) :
    ∀ (fuel : ℕ) (h : Hist) (ddt : ℚ) (i : ℕ),
      (i : ℤ) < ns → ns ≤ (i : ℤ) + 1 + fuel →
      (fixedGo e m cpl ey0c ns fuel h ddt i).t.length = h.t.length + (ns - i).toNat ∧
      (fixedGo e m cpl ey0c ns fuel h ddt i).ex.length = h.ex.length + (ns - i).toNat ∧
      (fixedGo e m cpl ey0c ns fuel h ddt i).ey.length = h.ey.length + (ns - i).toNat ∧
      (fixedGo e m cpl ey0c ns fuel h ddt i).sigs.length = h.sigs.length + (ns - i).toNat ∧
      (fixedGo e m cpl ey0c ns fuel h ddt i).sige.length = h.sige.length + (ns - i).toNat ∧
      (fixedGo e m cpl ey0c ns fuel h ddt i).sige2.length =
        h.sige2.length + (ns - i).toNat := by
  intro fuel
  induction fuel with
  | zero =>
    intro h ddt i hlo hhi
    obtain ⟨lt, lex, ley, lsigs, lsige, lsige2⟩ := fixedBody_len e m cpl ey0c h ddt i
    simp only [fixedGo]
    generalize hq : (fixedBody e m cpl ey0c h ddt i).1 = q at lt lex ley lsigs lsige lsige2 ⊢
    clear hq
    refine ⟨?_, ?_, ?_, ?_, ?_, ?_⟩ <;> omega
  | succ f IH =>
    intro h ddt i hlo hhi
    obtain ⟨lt, lex, ley, lsigs, lsige, lsige2⟩ := fixedBody_len e m cpl ey0c h ddt i
    simp only [fixedGo]
    generalize hq : fixedBody e m cpl ey0c h ddt i = pq at lt lex ley lsigs lsige lsige2 ⊢
    clear hq
    by_cases hc : ((i + 1 : ℕ) : ℤ) < ns
    · rw [if_pos hc]
      obtain ⟨olt, olex, oley, olsigs, olsige, olsige2⟩ :=
        IH pq.1 pq.2 (i + 1) hc (by push_cast at hhi ⊢; omega)
      refine ⟨?_, ?_, ?_, ?_, ?_, ?_⟩ <;> omega
    · rw [if_neg hc]
      refine ⟨?_, ?_, ?_, ?_, ?_, ?_⟩ <;> push_cast at hc <;> omega

/-! ### Bridges from the entry points to their loop calls (seed vectors of length one,
as the interface contract prescribes: one initial value per series) -/

lemma ODEadaptive_eq_go (e : Env) (t0 x0 y0 s0 g0 : ℚ) (cp : ℤ) (thr : ℚ) (m : String) :
    ODEadaptive e [t0] [x0] [y0] [s0] [g0] cp thr m =
      adaptiveGo e (if ¬ (m = "rlx" ∨ m = "der") then "der" else m)
        (((if cp > 100 ∨ cp < 0 then 0 else cp : ℤ) : ℚ) / 100)
        (max ((((if cp > 100 ∨ cp < 0 then 0 else cp : ℤ) : ℚ) / 100) * e.equi3) e.equi4)
        (if thr > 1 ∨ thr < 1 / 1000000 then 1 / 10000 else thr)
        (min (ratTrunc (10 * taumOf e (e.rates x0 y0 s0 g0) /
          ddtMin e (e.rates x0 y0 s0 g0))) 10000)
        (min (ratTrunc (10 * taumOf e (e.rates x0 y0 s0 g0) /
          ddtMin e (e.rates x0 y0 s0 g0))) 10000).toNat
        ⟨[t0], [x0], [y0], [s0], [g0, e.sigeFromRFAndSigs e.equi6], [g0 * g0]⟩
        (e.rates x0 y0 s0 g0) 0 := rfl

lemma ODEfixed_eq_go (e : Env) (t0 x0 y0 s0 g0 : ℚ) (N : ℤ) (dt : ℚ) (cp : ℤ)
    (m : String) :
    ODEfixed e [t0] [x0] [y0] [s0] [g0] N dt cp m =
      fixedGo e (if ¬ (m = "rlx" ∨ m = "der") then "der" else m)
        (((if cp > 100 ∨ cp < 0 then 0 else cp : ℤ) : ℚ) / 100)
        (max ((((if cp > 100 ∨ cp < 0 then 0 else cp : ℤ) : ℚ) / 100) * e.equi3) e.equi4)
        N N.toNat
        ⟨[t0], [x0], [y0], [s0], [g0, e.sigeFromRFAndSigs s0], [g0 * g0]⟩ dt 0 := rfl

/-- The adaptive run satisfies the loop postcondition from loop variable 0. -/
lemma ODEadaptive_spec (e : Env) (t0 x0 y0 s0 g0 : ℚ) (cp : ℤ) (thr : ℚ) (m : String) :
    AdaptiveStop e (if ¬ (m = "rlx" ∨ m = "der") then "der" else m)
      (if thr > 1 ∨ thr < 1 / 1000000 then 1 / 10000 else thr)
      (min (ratTrunc (10 * taumOf e (e.rates x0 y0 s0 g0) /
        ddtMin e (e.rates x0 y0 s0 g0))) 10000)
      0 (ODEadaptive e [t0] [x0] [y0] [s0] [g0] cp thr m) := by
  rw [ODEadaptive_eq_go]
  exact adaptiveGo_spec e _ _ _ _ _ _ _ _ 0 rfl rfl rfl rfl rfl rfl (by omega) rfl

lemma ODEadaptive_seed_sige (e : Env) (t0 x0 y0 s0 g0 : ℚ) (cp : ℤ) (thr : ℚ)
    (m : String) :
    (ODEadaptive e [t0] [x0] [y0] [s0] [g0] cp thr m).sige.getD 1 0 =
      e.sigeFromRFAndSigs e.equi6 := by
  rw [ODEadaptive_eq_go]
  rw [(adaptiveGo_pres e (if ¬ (m = "rlx" ∨ m = "der") then "der" else m)
      (((if cp > 100 ∨ cp < 0 then 0 else cp : ℤ) : ℚ) / 100)
      (max ((((if cp > 100 ∨ cp < 0 then 0 else cp : ℤ) : ℚ) / 100) * e.equi3) e.equi4)
      (if thr > 1 ∨ thr < 1 / 1000000 then 1 / 10000 else thr)
      (min (ratTrunc (10 * taumOf e (e.rates x0 y0 s0 g0) /
        ddtMin e (e.rates x0 y0 s0 g0))) 10000)
      (min (ratTrunc (10 * taumOf e (e.rates x0 y0 s0 g0) /
        ddtMin e (e.rates x0 y0 s0 g0))) 10000).toNat
      ⟨[t0], [x0], [y0], [s0], [g0, e.sigeFromRFAndSigs e.equi6], [g0 * g0]⟩
      (e.rates x0 y0 s0 g0) 0).2.2.2.2.2 1 (by simp)]
  rfl

lemma ODEfixed_seed_sige (e : Env) (t0 x0 y0 s0 g0 : ℚ) (N : ℤ) (dt : ℚ) (cp : ℤ)
    (m : String) :
    (ODEfixed e [t0] [x0] [y0] [s0] [g0] N dt cp m).sige.getD 1 0 =
      e.sigeFromRFAndSigs s0 := by
  rw [ODEfixed_eq_go]
  rw [(fixedGo_pres e (if ¬ (m = "rlx" ∨ m = "der") then "der" else m)
      (((if cp > 100 ∨ cp < 0 then 0 else cp : ℤ) : ℚ) / 100)
      (max ((((if cp > 100 ∨ cp < 0 then 0 else cp : ℤ) : ℚ) / 100) * e.equi3) e.equi4)
      N N.toNat
      ⟨[t0], [x0], [y0], [s0], [g0, e.sigeFromRFAndSigs s0], [g0 * g0]⟩ dt 0).2.2.2.2.2 1
      (by simp)]
  rfl

/-! ### Claim theorems -/

/-- C1 (code bug in the source): the spec's output contract says all five
caller-visible sequences are extended in place to a common length, but
`sige` is a value parameter in both overloads (lines 144 and 540), so the
caller's energy-spread vector is never extended: after a one-step run `t`,
`ex`, `ey`, `sigs` have length 2 while the caller's `sige` still has
length 1, and even the function's local copy has length 3 (caller seed,
pre-loop `sige0` push, one step). -/
theorem sige_by_value_breaks_common_length :
    (adaptiveCallerView E0 [0] [1] [1] [1] [1] 0 (1 / 10) "der").t.length = 2 ∧
    (adaptiveCallerView E0 [0] [1] [1] [1] [1] 0 (1 / 10) "der").ex.length = 2 ∧
    (adaptiveCallerView E0 [0] [1] [1] [1] [1] 0 (1 / 10) "der").ey.length = 2 ∧
    (adaptiveCallerView E0 [0] [1] [1] [1] [1] 0 (1 / 10) "der").sigs.length = 2 ∧
    (adaptiveCallerView E0 [0] [1] [1] [1] [1] 0 (1 / 10) "der").sige.length = 1 ∧
    (fixedCallerView E0 [0] [1] [1] [1] [1] 1 (1 / 2) 0 "der").t.length = 2 ∧
    (fixedCallerView E0 [0] [1] [1] [1] [1] 1 (1 / 2) 0 "der").sige.length = 1 ∧
    (ODEadaptive E0 [0] [1] [1] [1] [1] 0 (1 / 10) "der").sige.length = 3 := by
  with_unfolding_all decide

/-- C2: the adaptive loop executes at least one iteration; it stops exactly
when the step index reaches `ms = min((int)(10 * taum / taumin), 10000)`
computed from the initial growth rates (with `taum` clamped to at most 1)
or when the relative changes of `ex`, `ey` and `sigs` between the last two
steps are all within the sanitized threshold, whichever comes first: every
earlier step index was below `ms` and failed the convergence test. -/
theorem adaptive_loop_termination (e : Env) (t0 x0 y0 s0 g0 : ℚ) (cp : ℤ) (thr : ℚ)
    (m : String) :
    ∃ n : ℕ, 1 ≤ n ∧
      (ODEadaptive e [t0] [x0] [y0] [s0] [g0] cp thr m).t.length = n + 1 ∧
      (min (ratTrunc (10 * taumOf e (e.rates x0 y0 s0 g0) /
          ddtMin e (e.rates x0 y0 s0 g0))) 10000 ≤ (n : ℤ) ∨
        convergedAt (ODEadaptive e [t0] [x0] [y0] [s0] [g0] cp thr m) n
          (if thr > 1 ∨ thr < 1 / 1000000 then 1 / 10000 else thr)) ∧
      ∀ k : ℕ, 1 ≤ k → k < n →
        (k : ℤ) < min (ratTrunc (10 * taumOf e (e.rates x0 y0 s0 g0) /
            ddtMin e (e.rates x0 y0 s0 g0))) 10000 ∧
        ¬ convergedAt (ODEadaptive e [t0] [x0] [y0] [s0] [g0] cp thr m) k
          (if thr > 1 ∨ thr < 1 / 1000000 then 1 / 10000 else thr) := by
  obtain ⟨n, hn, hlt, _, _, _, _, _, hstop, hmid, _⟩ :=
    ODEadaptive_spec e t0 x0 y0 s0 g0 cp thr m
  exact ⟨n, hn, hlt, hstop, fun k hk1 hk2 => hmid k hk1 hk2⟩

/-- C2 witness: the termination characterization at a concrete run. -/
theorem adaptive_loop_termination_witness :
    ∃ n : ℕ, 1 ≤ n ∧
      (ODEadaptive E0 [0] [1] [1] [1] [1] 0 (1 / 10) "der").t.length = n + 1 ∧
      (min (ratTrunc (10 * taumOf E0 (E0.rates 1 1 1 1) /
          ddtMin E0 (E0.rates 1 1 1 1))) 10000 ≤ (n : ℤ) ∨
        convergedAt (ODEadaptive E0 [0] [1] [1] [1] [1] 0 (1 / 10) "der") n
          (if (1 : ℚ) / 10 > 1 ∨ (1 : ℚ) / 10 < 1 / 1000000 then 1 / 10000 else 1 / 10)) ∧
      ∀ k : ℕ, 1 ≤ k → k < n →
        (k : ℤ) < min (ratTrunc (10 * taumOf E0 (E0.rates 1 1 1 1) /
            ddtMin E0 (E0.rates 1 1 1 1))) 10000 ∧
        ¬ convergedAt (ODEadaptive E0 [0] [1] [1] [1] [1] 0 (1 / 10) "der") k
          (if (1 : ℚ) / 10 > 1 ∨ (1 : ℚ) / 10 < 1 / 1000000 then 1 / 10000 else 1 / 10) :=
  adaptive_loop_termination E0 0 1 1 1 1 0 (1 / 10) "der"

/-- C3 (code bug in the source): with the documented one-seed energy-spread
input, the pre-loop push of `sige0` leaves `sige` one entry longer than the
other series, so the `sige[i]` read when appending `sigs` and `sige2`
(lines 497-498, 511-512) is the PREVIOUS energy-spread entry, not the one
advanced in the same iteration: here the newly advanced value is `3`
(at `sige` index 2), yet the appended bunch length is
`sigsfromsige(1) = 1` and the appended square is `1`, not `9`. -/
theorem sigs_misaligned_with_seeded_sige :
    (ODEadaptive E0 [0] [1] [1] [1] [5] 0 (1 / 10) "der").sige.getD 2 0 = 3 ∧
    (ODEadaptive E0 [0] [1] [1] [1] [5] 0 (1 / 10) "der").sigs.getD 1 0 = 1 ∧
    (ODEadaptive E0 [0] [1] [1] [1] [5] 0 (1 / 10) "der").sigs.getD 1 0 ≠
      E0.sigsfromsige ((ODEadaptive E0 [0] [1] [1] [1] [5] 0 (1 / 10) "der").sige.getD 2 0) ∧
    (ODEadaptive E0 [0] [1] [1] [1] [5] 0 (1 / 10) "der").sige2.getD 1 0 ≠
      (ODEadaptive E0 [0] [1] [1] [1] [5] 0 (1 / 10) "der").sige.getD 2 0 *
        (ODEadaptive E0 [0] [1] [1] [1] [5] 0 (1 / 10) "der").sige.getD 2 0 := by
  with_unfolding_all decide

/-- C4 counterexample: the fixed-step loop is a do-while, so with step
count 0 it still executes one iteration and the series get length 2, not
0 + 1 as the claim states. -/
theorem fixed_zero_steps_cex :
    (ODEfixed E0 [0] [1] [1] [1] [1] 0 (1 / 2) 0 "der").t.length = 2 ∧
    (ODEfixed E0 [0] [1] [1] [1] [1] 0 (1 / 2) 0 "der").t.length ≠ 0 + 1 := by
  with_unfolding_all decide

/-- C4 (amended): for every caller-specified step count `N >= 1` the
fixed-step entry point produces `t`, `ex`, `ey`, `sigs` of length exactly
`N + 1` (seed plus `N` appended steps), regardless of convergence — the
loop condition `i < nsteps` is the only stopping test.  (For `N <= 0` the
do-while still executes once, giving length 2.) -/
theorem fixed_step_series_lengths (e : Env) (t0 x0 y0 s0 g0 : ℚ) (N : ℤ) (dt : ℚ)
    (cp : ℤ) (m : String) (hN : 1 ≤ N) :
    (ODEfixed e [t0] [x0] [y0] [s0] [g0] N dt cp m).t.length = N.toNat + 1 ∧
    (ODEfixed e [t0] [x0] [y0] [s0] [g0] N dt cp m).ex.length = N.toNat + 1 ∧
    (ODEfixed e [t0] [x0] [y0] [s0] [g0] N dt cp m).ey.length = N.toNat + 1 ∧
    (ODEfixed e [t0] [x0] [y0] [s0] [g0] N dt cp m).sigs.length = N.toNat + 1 := by
  rw [ODEfixed_eq_go]
  obtain ⟨olt, olex, oley, olsigs, _, _⟩ :=
    fixedGo_len e (if ¬ (m = "rlx" ∨ m = "der") then "der" else m)
      (((if cp > 100 ∨ cp < 0 then 0 else cp : ℤ) : ℚ) / 100)
      (max ((((if cp > 100 ∨ cp < 0 then 0 else cp : ℤ) : ℚ) / 100) * e.equi3) e.equi4)
      N N.toNat
      ⟨[t0], [x0], [y0], [s0], [g0, e.sigeFromRFAndSigs s0], [g0 * g0]⟩ dt 0
      (by omega) (by omega)
  simp only [List.length_cons, List.length_nil, Nat.cast_zero] at olt olex oley olsigs
  refine ⟨?_, ?_, ?_, ?_⟩ <;> omega

/-- C4 witness: a two-step fixed run has series of length 3. -/
theorem fixed_step_series_lengths_witness :
    (1 : ℤ) ≤ 2 ∧
    ((ODEfixed E0 [0] [1] [1] [1] [1] 2 (1 / 2) 0 "der").t.length = (2 : ℤ).toNat + 1 ∧
     (ODEfixed E0 [0] [1] [1] [1] [1] 2 (1 / 2) 0 "der").ex.length = (2 : ℤ).toNat + 1 ∧
     (ODEfixed E0 [0] [1] [1] [1] [1] 2 (1 / 2) 0 "der").ey.length = (2 : ℤ).toNat + 1 ∧
     (ODEfixed E0 [0] [1] [1] [1] [1] 2 (1 / 2) 0 "der").sigs.length = (2 : ℤ).toNat + 1) :=
  ⟨by decide, fixed_step_series_lengths E0 0 1 1 1 1 2 (1 / 2) 0 "der" (by decide)⟩

/-- C5 counterexample: in this adaptive run, at iteration 2 the applied step
(the difference of consecutive timestamps) is NOT `min(.../2)` computed from
the growth rates at the current (most recent) state: the `ddt` recomputation
(lines 375-380) precedes the growth-rate re-evaluation (lines 383-474), so
it still uses the previous iteration's rates. -/
theorem adaptive_stepsize_claim_cex :
    (ODEadaptive E2 [0] [1] [1] [1] [1] 0 (1 / 10) "der").t.getD 2 0 -
        (ODEadaptive E2 [0] [1] [1] [1] [1] 0 (1 / 10) "der").t.getD 1 0 ≠
      dtUsed E2 "der"
        (ratesOf E2 (ODEadaptive E2 [0] [1] [1] [1] [1] 0 (1 / 10) "der") 1) := by
  with_unfolding_all decide

/-- C5 (amended): at every iteration `k` of the adaptive loop the applied
step is `min(tau_x, tau_y, tau_s, 1/aes, 1/aex, 1/aey) / 2` — multiplied by
4 when the relaxation scheme is selected — computed from the growth-rate
values the `ibs` variable holds when the body starts, i.e. the values
evaluated at state `k - 2` (the initial evaluation at state 0 for the
first iteration), one state behind the most recent, because the `ddt`
recomputation precedes the per-iteration growth-rate re-evaluation. -/
theorem adaptive_stepsize_formula (e : Env) (t0 x0 y0 s0 g0 : ℚ) (cp : ℤ) (thr : ℚ)
    (m : String) :
    ∀ k : ℕ, 1 ≤ k →
      k + 1 ≤ (ODEadaptive e [t0] [x0] [y0] [s0] [g0] cp thr m).t.length →
      (ODEadaptive e [t0] [x0] [y0] [s0] [g0] cp thr m).t.getD k 0 =
        (ODEadaptive e [t0] [x0] [y0] [s0] [g0] cp thr m).t.getD (k - 1) 0 +
          dtUsed e (if ¬ (m = "rlx" ∨ m = "der") then "der" else m)
            (ratesOf e (ODEadaptive e [t0] [x0] [y0] [s0] [g0] cp thr m) (k - 2)) := by
  obtain ⟨n, hn, hlt, _, _, _, _, _, _, _, hdt⟩ :=
    ODEadaptive_spec e t0 x0 y0 s0 g0 cp thr m
  intro k hk1 hk2
  exact hdt k (by omega) (by omega)

/-- C5 witness: the amended step-size formula at a concrete run, iteration 1. -/
theorem adaptive_stepsize_formula_witness :
    1 ≤ 1 ∧ 1 + 1 ≤ (ODEadaptive E0 [0] [1] [1] [1] [1] 0 (1 / 10) "der").t.length ∧
    (ODEadaptive E0 [0] [1] [1] [1] [1] 0 (1 / 10) "der").t.getD 1 0 =
      (ODEadaptive E0 [0] [1] [1] [1] [1] 0 (1 / 10) "der").t.getD 0 0 +
        dtUsed E0 (if ¬ (("der" : String) = "rlx" ∨ ("der" : String) = "der") then "der"
            else "der")
          (ratesOf E0 (ODEadaptive E0 [0] [1] [1] [1] [1] 0 (1 / 10) "der") (1 - 2)) :=
  ⟨le_rfl, by with_unfolding_all decide,
    adaptive_stepsize_formula E0 0 1 1 1 1 0 (1 / 10) "der" 1 le_rfl
      (by with_unfolding_all decide)⟩

/-- C6 counterexample: in this fixed-step relaxation run `tau_x * aex = 2 >= 1`;
the step-halving branch fires (the appended timestamp advances by
`stepsize / 2 = 1/2`, not 1), but this does NOT avoid the non-positive
relaxation-factor denominator: `1 - tau_x * aex = -1 < 0`, the factor
`1/(1 - 2) = -1 < 0` is still computed and applied, and the appended
horizontal emittance is `1 + (1/2) * ((-1) * 1 - 1) = 0`. -/
theorem fixed_rlx_guard_cex :
    (ODEfixed E3 [0] [1] [1] [1] [1] 1 1 0 "rlx").t.getD 1 0 = 1 / 2 ∧
    (ODEfixed E3 [0] [1] [1] [1] [1] 1 1 0 "rlx").ex.getD 1 0 = 0 ∧
    1 - E3.tauradx * (E3.rates 1 1 1 1).2.1 < 0 ∧
    rlxFactor E3.tauradx (E3.rates 1 1 1 1).2.1 < 0 := by
  with_unfolding_all decide

/-- C6 (amended): in the fixed-step relaxation branch, whenever any of
`tau_x*aex`, `tau_y*aey`, `tau_s*aes` is at least 1 at an iteration, the
step size is halved before the update is applied (and stays halved for
later iterations); the relaxation factors are nevertheless still computed
from the same ratios — with a non-positive denominator — and used in that
update: the appended `ex` is
`ex + (ddt/2) * (xfactor * equi[3] - ex)` with `xfactor = 1/(1 - tau_x*aex)`. -/
theorem fixed_rlx_halving_guard (e : Env) (cpl ey0c ddt : ℚ) (h : Hist) (i : ℕ)
    (hlt : h.t.length = i + 1) (hlex : h.ex.length = i + 1)
    (hguard : 1 ≤ e.tauradx * (ratesOf e h i).2.1 ∨ 1 ≤ e.taurady * (ratesOf e h i).2.2 ∨
      1 ≤ e.taurads * (ratesOf e h i).1) :
    (fixedBody e "rlx" cpl ey0c h ddt i).2 = ddt / 2 ∧
    (fixedBody e "rlx" cpl ey0c h ddt i).1.t.getD (i + 1) 0 = h.t.getD i 0 + ddt / 2 ∧
    (fixedBody e "rlx" cpl ey0c h ddt i).1.ex.getD (i + 1) 0 =
      h.ex.getD i 0 + ddt / 2 *
        (rlxFactor e.tauradx (ratesOf e h i).2.1 * e.equi3 - h.ex.getD i 0) := by
  simp only [fixedBody, reduceIte]
  rw [if_pos hguard]
  refine ⟨rfl, ?_, ?_⟩
  · show (h.t ++ [h.t.getD i 0 + ddt / 2]).getD (i + 1) 0 = h.t.getD i 0 + ddt / 2
    rw [← hlt, getD_snoc_self]
  · show (h.ex ++ [h.ex.getD i 0 + ddt / 2 *
        (rlxFactor e.tauradx (ratesOf e h i).2.1 * e.equi3 - h.ex.getD i 0)]).getD (i + 1) 0 = _
    rw [← hlex, getD_snoc_self]

/-- C6 witness: the halving guard conclusion at a concrete iteration. -/
theorem fixed_rlx_halving_guard_witness :
    (⟨[0], [1], [1], [1], [1, 1], [1]⟩ : Hist).t.length = 0 + 1 ∧
    (⟨[0], [1], [1], [1], [1, 1], [1]⟩ : Hist).ex.length = 0 + 1 ∧
    (1 ≤ E3.tauradx * (ratesOf E3 ⟨[0], [1], [1], [1], [1, 1], [1]⟩ 0).2.1 ∨
      1 ≤ E3.taurady * (ratesOf E3 ⟨[0], [1], [1], [1], [1, 1], [1]⟩ 0).2.2 ∨
      1 ≤ E3.taurads * (ratesOf E3 ⟨[0], [1], [1], [1], [1, 1], [1]⟩ 0).1) ∧
    ((fixedBody E3 "rlx" 0 1 ⟨[0], [1], [1], [1], [1, 1], [1]⟩ 1 0).2 = 1 / 2 ∧
     (fixedBody E3 "rlx" 0 1 ⟨[0], [1], [1], [1], [1, 1], [1]⟩ 1 0).1.t.getD (0 + 1) 0 =
       (⟨[0], [1], [1], [1], [1, 1], [1]⟩ : Hist).t.getD 0 0 + 1 / 2 ∧
     (fixedBody E3 "rlx" 0 1 ⟨[0], [1], [1], [1], [1, 1], [1]⟩ 1 0).1.ex.getD (0 + 1) 0 =
       (⟨[0], [1], [1], [1], [1, 1], [1]⟩ : Hist).ex.getD 0 0 + 1 / 2 *
         (rlxFactor E3.tauradx (ratesOf E3 ⟨[0], [1], [1], [1], [1, 1], [1]⟩ 0).2.1 *
             E3.equi3 -
           (⟨[0], [1], [1], [1], [1, 1], [1]⟩ : Hist).ex.getD 0 0)) :=
  ⟨rfl, rfl, by with_unfolding_all decide,
    fixed_rlx_halving_guard E3 0 1 1 ⟨[0], [1], [1], [1], [1, 1], [1]⟩ 0 rfl rfl
      (by with_unfolding_all decide)⟩

/-- C7: the seed energy spread the adaptive entry point appends before its
loop is `SigeFromRFAndSigs(equi[6], ...)` — for every caller-supplied
initial bunch length `s0` and energy-spread seed `g0`, hence independent of
both — while the fixed-step entry point appends
`SigeFromRFAndSigs(sigs[0], ...)`; on the concrete input with
`sigs = [5]` the two entry points start from different energy spreads. -/
theorem seed_energy_spread_sources (e : Env) (t0 x0 y0 s0 g0 thr dt : ℚ)
    (cp cp2 N : ℤ) (m m2 : String) :
    (ODEadaptive e [t0] [x0] [y0] [s0] [g0] cp thr m).sige.getD 1 0 =
      e.sigeFromRFAndSigs e.equi6 ∧
    (ODEfixed e [t0] [x0] [y0] [s0] [g0] N dt cp2 m2).sige.getD 1 0 =
      e.sigeFromRFAndSigs s0 ∧
    (ODEadaptive E0 [0] [1] [1] [5] [1] 0 (1 / 10) "der").sige.getD 1 0 ≠
      (ODEfixed E0 [0] [1] [1] [5] [1] 1 (1 / 2) 0 "der").sige.getD 1 0 := by
  refine ⟨ODEadaptive_seed_sige e t0 x0 y0 s0 g0 cp thr m,
    ODEfixed_seed_sige e t0 x0 y0 s0 g0 N dt cp2 m2, ?_⟩
  rw [ODEadaptive_seed_sige, ODEfixed_seed_sige]
  with_unfolding_all decide

/-- C8: for the derivative scheme in either entry point, at a state with
`ex = equi[3]`, `ey = ey0_coupled = max(coupling * equi[3], equi[4])`,
energy spread `sqrt(equi[5])` and vanishing growth rates, all three
derivatives are zero and the appended `ex`, `ey` and energy spread equal
the previous values exactly, whatever the step size. -/
theorem derivative_scheme_equilibrium (e : Env) (cpl ddt : ℚ) (h : Hist)
    (ibs : ℚ × ℚ × ℚ) (i : ℕ)
    (hlex : h.ex.length = i + 1) (hley : h.ey.length = i + 1)
    (hlsige : h.sige.length = i + 2)
    (hx : h.ex.getD i 0 = e.equi3)
    (hy : h.ey.getD i 0 = max (cpl * e.equi3) e.equi4)
    (hs : h.sige.getD i 0 = e.sqrtEqui5)
    (hr : ratesOf e h i = (0, 0, 0)) :
    dxdtOf e (h.ex.getD i 0) 0 = 0 ∧
    dydtOf e (max (cpl * e.equi3) e.equi4) (h.ey.getD i 0) 0 = 0 ∧
    dedtOf e (h.sige.getD i 0) 0 = 0 ∧
    (adaptiveBody e "der" cpl (max (cpl * e.equi3) e.equi4) h ibs i).1.ex.getD (i + 1) 0 =
      h.ex.getD i 0 ∧
    (adaptiveBody e "der" cpl (max (cpl * e.equi3) e.equi4) h ibs i).1.ey.getD (i + 1) 0 =
      h.ey.getD i 0 ∧
    (adaptiveBody e "der" cpl (max (cpl * e.equi3) e.equi4) h ibs i).1.sige.getD (i + 2) 0 =
      h.sige.getD i 0 ∧
    (fixedBody e "der" cpl (max (cpl * e.equi3) e.equi4) h ddt i).1.ex.getD (i + 1) 0 =
      h.ex.getD i 0 ∧
    (fixedBody e "der" cpl (max (cpl * e.equi3) e.equi4) h ddt i).1.ey.getD (i + 1) 0 =
      h.ey.getD i 0 ∧
    (fixedBody e "der" cpl (max (cpl * e.equi3) e.equi4) h ddt i).1.sige.getD (i + 2) 0 =
      h.sige.getD i 0 := by
  have hz1 : dxdtOf e (h.ex.getD i 0) 0 = 0 := by rw [hx]; simp [dxdtOf]
  have hz2 : dydtOf e (max (cpl * e.equi3) e.equi4) (h.ey.getD i 0) 0 = 0 := by
    rw [hy]; simp [dydtOf]
  have hz3 : dedtOf e (h.sige.getD i 0) 0 = 0 := by rw [hs]; simp [dedtOf]
  refine ⟨hz1, hz2, hz3, ?_, ?_, ?_, ?_, ?_, ?_⟩
  · show (h.ex ++ [h.ex.getD i 0 + ddtMin e ibs / 2 *
        dxdtOf e (h.ex.getD i 0) (ratesOf e h i).2.1]).getD (i + 1) 0 = h.ex.getD i 0
    rw [← hlex, getD_snoc_self, hr]
    show h.ex.getD i 0 + ddtMin e ibs / 2 * dxdtOf e (h.ex.getD i 0) 0 = h.ex.getD i 0
    rw [hz1, mul_zero, add_zero]
  · show (h.ey ++ [h.ey.getD i 0 + ddtMin e ibs / 2 *
        dydtOf e (max (cpl * e.equi3) e.equi4) (h.ey.getD i 0) (ratesOf e h i).2.2]).getD
        (i + 1) 0 = h.ey.getD i 0
    rw [← hley, getD_snoc_self, hr]
    show h.ey.getD i 0 + ddtMin e ibs / 2 *
        dydtOf e (max (cpl * e.equi3) e.equi4) (h.ey.getD i 0) 0 = h.ey.getD i 0
    rw [hz2, mul_zero, add_zero]
  · show (h.sige ++ [h.sige.getD i 0 + ddtMin e ibs / 2 *
        dedtOf e (h.sige.getD i 0) (ratesOf e h i).1]).getD (i + 2) 0 = h.sige.getD i 0
    rw [← hlsige, getD_snoc_self, hr]
    show h.sige.getD i 0 + ddtMin e ibs / 2 * dedtOf e (h.sige.getD i 0) 0 = h.sige.getD i 0
    rw [hz3, mul_zero, add_zero]
  · show (h.ex ++ [h.ex.getD i 0 + ddt *
        dxdtOf e (h.ex.getD i 0) (ratesOf e h i).2.1]).getD (i + 1) 0 = h.ex.getD i 0
    rw [← hlex, getD_snoc_self, hr]
    show h.ex.getD i 0 + ddt * dxdtOf e (h.ex.getD i 0) 0 = h.ex.getD i 0
    rw [hz1, mul_zero, add_zero]
  · show (h.ey ++ [h.ey.getD i 0 + ddt *
        dydtOf e (max (cpl * e.equi3) e.equi4) (h.ey.getD i 0) (ratesOf e h i).2.2]).getD
        (i + 1) 0 = h.ey.getD i 0
    rw [← hley, getD_snoc_self, hr]
    show h.ey.getD i 0 + ddt *
        dydtOf e (max (cpl * e.equi3) e.equi4) (h.ey.getD i 0) 0 = h.ey.getD i 0
    rw [hz2, mul_zero, add_zero]
  · show (h.sige ++ [h.sige.getD i 0 + ddt *
        dedtOf e (h.sige.getD i 0) (ratesOf e h i).1]).getD (i + 2) 0 = h.sige.getD i 0
    rw [← hlsige, getD_snoc_self, hr]
    show h.sige.getD i 0 + ddt * dedtOf e (h.sige.getD i 0) 0 = h.sige.getD i 0
    rw [hz3, mul_zero, add_zero]

/-- A one-seed history at the equilibrium state of `E0`, used as witness input. -/
def Wh : Hist := ⟨[0], [1], [1], [1], [1, 1], [1]⟩

/-- C8 witness: the equilibrium fixed point at a concrete state, with step size 7. -/
theorem derivative_scheme_equilibrium_witness :
    Wh.ex.length = 0 + 1 ∧ Wh.ey.length = 0 + 1 ∧ Wh.sige.length = 0 + 2 ∧
    Wh.ex.getD 0 0 = E0.equi3 ∧
    Wh.ey.getD 0 0 = max (0 * E0.equi3) E0.equi4 ∧
    Wh.sige.getD 0 0 = E0.sqrtEqui5 ∧
    ratesOf E0 Wh 0 = (0, 0, 0) ∧
    (dxdtOf E0 (Wh.ex.getD 0 0) 0 = 0 ∧
     dydtOf E0 (max (0 * E0.equi3) E0.equi4) (Wh.ey.getD 0 0) 0 = 0 ∧
     dedtOf E0 (Wh.sige.getD 0 0) 0 = 0 ∧
     (adaptiveBody E0 "der" 0 (max (0 * E0.equi3) E0.equi4) Wh (0, 0, 0) 0).1.ex.getD
       (0 + 1) 0 = Wh.ex.getD 0 0 ∧
     (adaptiveBody E0 "der" 0 (max (0 * E0.equi3) E0.equi4) Wh (0, 0, 0) 0).1.ey.getD
       (0 + 1) 0 = Wh.ey.getD 0 0 ∧
     (adaptiveBody E0 "der" 0 (max (0 * E0.equi3) E0.equi4) Wh (0, 0, 0) 0).1.sige.getD
       (0 + 2) 0 = Wh.sige.getD 0 0 ∧
     (fixedBody E0 "der" 0 (max (0 * E0.equi3) E0.equi4) Wh 7 0).1.ex.getD (0 + 1) 0 =
       Wh.ex.getD 0 0 ∧
     (fixedBody E0 "der" 0 (max (0 * E0.equi3) E0.equi4) Wh 7 0).1.ey.getD (0 + 1) 0 =
       Wh.ey.getD 0 0 ∧
     (fixedBody E0 "der" 0 (max (0 * E0.equi3) E0.equi4) Wh 7 0).1.sige.getD (0 + 2) 0 =
       Wh.sige.getD 0 0) :=
  ⟨rfl, rfl, rfl, by with_unfolding_all decide, by with_unfolding_all decide,
   by with_unfolding_all decide, rfl,
   derivative_scheme_equilibrium E0 0 7 Wh (0, 0, 0) 0 rfl rfl rfl
     (by with_unfolding_all decide) (by with_unfolding_all decide)
     (by with_unfolding_all decide) rfl⟩

/-- C9: two independent defaults, each under its own condition only.  A
scheme string that is neither "rlx" nor "der" makes BOTH entry points run
exactly as with "der", whatever the threshold; a threshold above 1 or
below 1e-6 makes the adaptive entry point run exactly as with threshold
1e-4, whatever the method string.  No input is rejected — the run proceeds
to the same total result. -/
theorem invalid_config_defaults (e : Env) (t x y s g : List ℚ) (cp : ℤ) (thr dt : ℚ)
    (m : String) (N : ℤ) :
    (m ≠ "rlx" → m ≠ "der" →
      ODEadaptive e t x y s g cp thr m = ODEadaptive e t x y s g cp thr "der" ∧
      ODEfixed e t x y s g N dt cp m = ODEfixed e t x y s g N dt cp "der") ∧
    (thr > 1 ∨ thr < 1 / 1000000 →
      ODEadaptive e t x y s g cp thr m = ODEadaptive e t x y s g cp (1 / 10000) m) := by
  constructor
  · intro hm1 hm2
    have hmeq : (if ¬ (m = "rlx" ∨ m = "der") then "der" else m) = "der" := by
      simp [hm1, hm2]
    constructor
    · simp only [ODEadaptive, reduceIte]
      rw [hmeq]
      norm_num
    · simp only [ODEfixed, reduceIte]
      rw [hmeq]
      norm_num
  · intro hthr
    have hteq : (if thr > 1 ∨ thr < 1 / 1000000 then (1 : ℚ) / 10000 else thr) =
        1 / 10000 := if_pos hthr
    have hteq2 : (if (1 : ℚ) / 10000 > 1 ∨ (1 : ℚ) / 10000 < 1 / 1000000 then (1 : ℚ) / 10000
        else 1 / 10000) = 1 / 10000 := by norm_num
    simp only [ODEadaptive]
    rw [hteq, hteq2]

/-- C9 witness: the method default at an invalid method with an IN-range
threshold, and the threshold default at an out-of-range threshold with a
VALID method. -/
theorem invalid_config_defaults_witness :
    ("xxx" ≠ "rlx") ∧ ("xxx" ≠ "der") ∧ ((2 : ℚ) > 1 ∨ (2 : ℚ) < 1 / 1000000) ∧
    (ODEadaptive E0 [0] [1] [1] [1] [1] 0 (1 / 10) "xxx" =
        ODEadaptive E0 [0] [1] [1] [1] [1] 0 (1 / 10) "der" ∧
      ODEfixed E0 [0] [1] [1] [1] [1] 1 (1 / 2) 0 "xxx" =
        ODEfixed E0 [0] [1] [1] [1] [1] 1 (1 / 2) 0 "der") ∧
    (ODEadaptive E0 [0] [1] [1] [1] [1] 0 2 "der" =
        ODEadaptive E0 [0] [1] [1] [1] [1] 0 (1 / 10000) "der") :=
  ⟨by decide, by decide, by norm_num,
    (invalid_config_defaults E0 [0] [1] [1] [1] [1] 0 (1 / 10) (1 / 2) "xxx" 1).1
      (by decide) (by decide),
    (invalid_config_defaults E0 [0] [1] [1] [1] [1] 0 2 (1 / 2) "der" 1).2
      (by norm_num)⟩

/-- C10: a coupling percentage above 100 or below 0 is replaced by 0 before
the coupling fraction is computed, so the whole run of either entry point
equals the run with coupling percentage 0; no input is rejected. -/
theorem coupling_percentage_clamp (e : Env) (t x y s g : List ℚ) (thr dt : ℚ)
    (m : String) (N : ℤ) (cp : ℤ) (hcp : cp > 100 ∨ cp < 0) :
    ODEadaptive e t x y s g cp thr m = ODEadaptive e t x y s g 0 thr m ∧
    ODEfixed e t x y s g N dt cp m = ODEfixed e t x y s g N dt 0 m := by
  have h1 : (if cp > 100 ∨ cp < 0 then (0 : ℤ) else cp) = 0 := if_pos hcp
  have h2 : (if (0 : ℤ) > 100 ∨ (0 : ℤ) < 0 then (0 : ℤ) else 0) = 0 := by norm_num
  constructor
  · simp only [ODEadaptive, reduceIte]
    rw [h1]
    norm_num
  · simp only [ODEfixed, reduceIte]
    rw [h1]
    norm_num

/-- C10 witness: coupling percentages 150 and -5 behave exactly as 0. -/
theorem coupling_percentage_clamp_witness :
    ((150 : ℤ) > 100 ∨ (150 : ℤ) < 0) ∧ ((-5 : ℤ) > 100 ∨ (-5 : ℤ) < 0) ∧
    (ODEadaptive E0 [0] [1] [1] [1] [1] 150 (1 / 10) "der" =
        ODEadaptive E0 [0] [1] [1] [1] [1] 0 (1 / 10) "der" ∧
      ODEfixed E0 [0] [1] [1] [1] [1] 1 (1 / 2) 150 "der" =
        ODEfixed E0 [0] [1] [1] [1] [1] 1 (1 / 2) 0 "der") ∧
    (ODEadaptive E0 [0] [1] [1] [1] [1] (-5) (1 / 10) "der" =
        ODEadaptive E0 [0] [1] [1] [1] [1] 0 (1 / 10) "der" ∧
      ODEfixed E0 [0] [1] [1] [1] [1] 1 (1 / 2) (-5) "der" =
        ODEfixed E0 [0] [1] [1] [1] [1] 1 (1 / 2) 0 "der") :=
  ⟨by decide, by decide,
    coupling_percentage_clamp E0 [0] [1] [1] [1] [1] (1 / 10) (1 / 2) "der" 1 150
      (by decide),
    coupling_percentage_clamp E0 [0] [1] [1] [1] [1] (1 / 10) (1 / 2) "der" 1 (-5)
      (by decide)⟩
